/-
  Verification of the value model, comparator, arithmetic operators and
  record codec of `src/core/types.rs` (limbo core).

  Shallow embedding conventions:
  * `i64` is `Int`; wrapping arithmetic is made explicit where overflow matters.
  * `f64` is modelled by the inductive `F64`: a finite value carried as a
    rational, plus the special values `inf`, `neginf` and `nan`.  The cast
    `i64 as f64` is modelled with IEEE-754 round-half-to-even.  Finite float
    arithmetic is idealized as exact rational arithmetic (no theorem below
    depends on a rounded finite result).
  * byte buffers (`Vec<u8>`) are `List Nat`, strings keep Rust's UTF-8 byte
    view where ordering or serialization is concerned.
  * A Rust function that can panic (`todo!`, `unreachable!`, `unwrap`,
    `assert!`) is embedded as an `Option`-returning function; `none` is the
    panic outcome.
-/
import Mathlib

set_option maxHeartbeats 1000000

/-! ## Model of `f64` -/

/-- Model of Rust's `f64`: finite values carried exactly as rationals plus
the IEEE special values.  `-0.0` is identified with `0.0` (their `==` and
`partial_cmp` agree, and no claim distinguishes them). -/
inductive F64 where
  | finite (q : ℚ)
  | inf
  | neginf
  | nan
deriving DecidableEq, Repr

/-- Three-way comparison on `ℚ`, the result Rust's `f64::partial_cmp`
produces on two finite floats. -/
def qCmp (a b : ℚ) : Ordering :=
  if a < b then .lt else if a = b then .eq else .gt

/-- Model of `f64::partial_cmp`: `none` whenever an operand is NaN. -/
def f64PartialCmp : F64 → F64 → Option Ordering
  | .nan, _ => none
  | _, .nan => none
  | .finite a, .finite b => some (qCmp a b)
  | .neginf, .neginf => some .eq
  | .inf, .inf => some .eq
  | .neginf, _ => some .lt
  | _, .neginf => some .gt
  | .inf, _ => some .gt
  | _, .inf => some .lt

/-- Model of `==` (`PartialEq`) on `f64`: NaN is not equal to anything,
including itself. -/
def f64Eq : F64 → F64 → Bool
  | .finite a, .finite b => decide (a = b)
  | .inf, .inf => true
  | .neginf, .neginf => true
  | _, _ => false

/-- The integer nearest to `i` among those exactly representable as an
IEEE-754 double (53-bit significand), ties to even: the value of the Rust
cast `i as f64` for an `i64` input. -/
def castIntF64Val (i : Int) : Int :=
  if i.natAbs ≤ 2 ^ 53 then i
  else
    let n := i.natAbs
    let e := Nat.log2 n
    let ulp := 2 ^ (e - 52)
    let q := n / ulp
    let r := n % ulp
    let q2 : Nat :=
      if 2 * r < ulp then q
      else if ulp < 2 * r then q + 1
      else if q % 2 = 0 then q else q + 1
    (if i < 0 then -1 else 1) * ((q2 * ulp : Nat) : Int)

/-- Model of the Rust cast `i as f64` (round half to even; an `i64` can
never overflow to infinity). -/
def intToF64 (i : Int) : F64 := .finite (castIntF64Val i)

/-- Model of `f64` addition.  Special values follow IEEE-754; finite sums
are idealized as exact rational sums. -/
def f64Add : F64 → F64 → F64
  | .nan, _ => .nan
  | _, .nan => .nan
  | .inf, .neginf => .nan
  | .neginf, .inf => .nan
  | .inf, _ => .inf
  | _, .inf => .inf
  | .neginf, _ => .neginf
  | _, .neginf => .neginf
  | .finite a, .finite b => .finite (a + b)

/-- Model of `f64` division.  Special values follow IEEE-754 (division by
zero yields an infinity, `0/0` yields NaN); finite quotients are idealized
as exact rational quotients. -/
def f64Div : F64 → F64 → F64
  | .nan, _ => .nan
  | _, .nan => .nan
  | .inf, .inf => .nan
  | .inf, .neginf => .nan
  | .neginf, .inf => .nan
  | .neginf, .neginf => .nan
  | .inf, .finite _ => .inf
  | .neginf, .finite _ => .neginf
  | .finite _, .inf => .finite 0
  | .finite _, .neginf => .finite 0
  | .finite a, .finite b =>
    if b = 0 then
      if a = 0 then .nan else if a < 0 then .neginf else .inf
    else .finite (a / b)

/-- Model of Rust's `Debug`/`Display` rendering of an `f64` (used only to
build text in the `Text + Float` arithmetic arms; no theorem inspects it).
Integral doubles render as in Rust (`5.0`); other rationals are rendered
with Lean's rational notation as a stand-in for the shortest-roundtrip
decimal. -/
def f64Display : F64 → String
  | .nan => "NaN"
  | .inf => "inf"
  | .neginf => "-inf"
  | .finite q => if q.den = 1 then toString q.num ++ ".0" else toString q

/-! ## Byte-level helpers -/

/-- Three-way comparison on `Nat` (byte values). -/
def natCmp (a b : Nat) : Ordering :=
  if a < b then .lt else if a = b then .eq else .gt

/-- Lexicographic byte-wise comparison: the shared semantics of
`<[u8] as Ord>::cmp` and (through UTF-8) `<str as Ord>::cmp`. -/
def lexCmp : List Nat → List Nat → Ordering
  | [], [] => .eq
  | [], _ :: _ => .lt
  | _ :: _, [] => .gt
  | a :: as', b :: bs' =>
    match natCmp a b with
    | .eq => lexCmp as' bs'
    | o => o

/-- UTF-8 encoding of one character (standard 1–4 byte encoding, the byte
view Rust's `str::as_bytes` exposes). -/
def utf8Bytes (c : Char) : List Nat :=
  let n := c.toNat
  if n < 0x80 then [n]
  else if n < 0x800 then [0xC0 + n / 64, 0x80 + n % 64]
  else if n < 0x10000 then
    [0xE0 + n / 4096, 0x80 + n / 64 % 64, 0x80 + n % 64]
  else
    [0xF0 + n / 262144, 0x80 + n / 4096 % 64, 0x80 + n / 64 % 64, 0x80 + n % 64]

/-- The UTF-8 byte sequence of a string (`String::as_bytes`). -/
def strBytes (s : String) : List Nat := (s.data.map utf8Bytes).flatten

/-! ## The data model of `src/core/types.rs` -/

/-- `TextSubtype`: plain text or JSON-marked text. -/
inductive TextSubtype where
  | Text
  | Json
deriving DecidableEq, Repr

/-- Derived `PartialEq` on `TextSubtype`. -/
def TextSubtype.beq : TextSubtype → TextSubtype → Bool
  | .Text, .Text => true
  | .Json, .Json => true
  | _, _ => false

/-- `LimboText`: a shared string payload plus its subtype tag. -/
structure LimboText where
  value : String
  subtype : TextSubtype
deriving DecidableEq, Repr

/-- `LimboText::new`: plain-text constructor. -/
def LimboText.new (value : String) : LimboText := ⟨value, .Text⟩

/-- `LimboText::json`: JSON-marked constructor. -/
def LimboText.json (value : String) : LimboText := ⟨value, .Json⟩

mutual
/-- `OwnedValue`: the owned dynamically-typed SQL scalar. -/
inductive OwnedValue where
  | Null
  | Integer (i : Int)
  | Float (f : F64)
  | Text (t : LimboText)
  | Blob (b : List Nat)
  | Agg (a : AggContext)
  | Record (r : OwnedRecord)

/-- `AggContext`: the aggregate accumulator variants. -/
inductive AggContext where
  | Avg (acc count : OwnedValue)
  | Sum (acc : OwnedValue)
  | Count (count : OwnedValue)
  | Max (m : Option OwnedValue)
  | Min (m : Option OwnedValue)
  | GroupConcat (s : OwnedValue)

/-- `OwnedRecord`: an ordered sequence of owned values. -/
inductive OwnedRecord where
  | mk (values : List OwnedValue)
end

/-- Field accessor for `OwnedRecord.values`. -/
def OwnedRecord.values : OwnedRecord → List OwnedValue
  | .mk vs => vs

/-- `OwnedValue::build_text`. -/
def OwnedValue.build_text (text : String) : OwnedValue :=
  .Text (LimboText.new text)

/-- `AggContext::final_value`: projection of an accumulator to a plain
value (`Max`/`Min` project to `Null` when never updated). -/
def AggContext.final_value : AggContext → OwnedValue
  | .Avg acc _ => acc
  | .Sum acc => acc
  | .Count count => count
  | .Max m => m.getD .Null
  | .Min m => m.getD .Null
  | .GroupConcat s => s

/-- `sizeOf` bound used for the termination of the comparator: projecting
an accumulator to its final value shrinks it. -/
def AggContext.sizeOf_final_value (a : AggContext) :
    sizeOf a.final_value < sizeOf a := by
  cases a <;> simp [AggContext.final_value] <;> try omega
  case Max m =>
    cases m <;> simp [Option.getD]
    omega
  case Min m =>
    cases m <;> simp [Option.getD]
    omega

/-! ## The comparator (`impl PartialOrd for OwnedValue`, `impl Ord`)

`OwnedValue.partCmp` embeds `OwnedValue::partial_cmp`.  The outer `Option`
is the panic outcome of the `todo!` fallback arm (`none` = panic); the
inner `Option Ordering` is the Rust `Option<Ordering>` result.  The match
arms appear in exactly the source order (first match wins, as in Rust). -/

/-- Three-way comparison on `Int` (`i64::cmp`). -/
def intCmp (a b : Int) : Ordering :=
  if a < b then .lt else if a = b then .eq else .gt

mutual
/-- `OwnedValue::partial_cmp` (see src/core/types.rs, lines 123–167). -/
def OwnedValue.partCmp : OwnedValue → OwnedValue → Option (Option Ordering)
  | .Integer int_left, .Integer int_right => some (some (intCmp int_left int_right))
  | .Integer int_left, .Float float_right =>
    some (f64PartialCmp (intToF64 int_left) float_right)
  | .Float float_left, .Integer int_right =>
    some (f64PartialCmp float_left (intToF64 int_right))
  | .Float float_left, .Float float_right =>
    some (f64PartialCmp float_left float_right)
  | .Integer _, .Text _ => some (some .lt)
  | .Integer _, .Blob _ => some (some .lt)
  | .Float _, .Text _ => some (some .lt)
  | .Float _, .Blob _ => some (some .lt)
  | .Text _, .Integer _ => some (some .gt)
  | .Text _, .Float _ => some (some .gt)
  | .Blob _, .Integer _ => some (some .gt)
  | .Blob _, .Float _ => some (some .gt)
  | .Text text_left, .Text text_right =>
    some (some (lexCmp (strBytes text_left.value) (strBytes text_right.value)))
  | .Text _, .Blob _ => some (some .lt)
  | .Blob _, .Text _ => some (some .gt)
  | .Blob blob_left, .Blob blob_right => some (some (lexCmp blob_left blob_right))
  | .Null, .Null => some (some .eq)
  | .Null, _ => some (some .lt)
  | _, .Null => some (some .gt)
  | .Agg a, .Agg b => AggContext.partCmp a b
  | .Agg a, other => OwnedValue.partCmp a.final_value other
  | other, .Agg b => OwnedValue.partCmp other b.final_value
  | _, _ => none
termination_by a b => sizeOf a + sizeOf b
decreasing_by
  all_goals simp_wf
  all_goals try omega
  all_goals first
  | (have h := AggContext.sizeOf_final_value a; omega)
  | (have h := AggContext.sizeOf_final_value b; omega)

/-- `AggContext::partial_cmp` (mismatched variants give Rust `None`). -/
def AggContext.partCmp : AggContext → AggContext → Option (Option Ordering)
  | .Avg a _, .Avg b _ => OwnedValue.partCmp a b
  | .Sum a, .Sum b => OwnedValue.partCmp a b
  | .Count a, .Count b => OwnedValue.partCmp a b
  | .Max a, .Max b => optPartCmp a b
  | .Min a, .Min b => optPartCmp a b
  | .GroupConcat a, .GroupConcat b => OwnedValue.partCmp a b
  | _, _ => some none
termination_by a b => sizeOf a + sizeOf b
decreasing_by all_goals (simp_wf; omega)

/-- `Option<OwnedValue>::partial_cmp` (`None` sorts below `Some`). -/
def optPartCmp : Option OwnedValue → Option OwnedValue → Option (Option Ordering)
  | none, none => some (some .eq)
  | none, some _ => some (some .lt)
  | some _, none => some (some .gt)
  | some a, some b => OwnedValue.partCmp a b
termination_by a b => sizeOf a + sizeOf b
decreasing_by all_goals (simp_wf; omega)
end

/-- `OwnedValue::cmp` (`Ord`): `self.partial_cmp(other).unwrap()` — `none`
models the panic, reached when `partial_cmp` itself panics or returns
Rust `None`. -/
def OwnedValue.cmp (a b : OwnedValue) : Option Ordering :=
  (OwnedValue.partCmp a b).bind id

/-! ## Derived `PartialEq` on `OwnedValue` (the `==` operator) -/

mutual
/-- The derived `PartialEq` on `OwnedValue`: variant tags and all fields
(including the `LimboText` subtype and the `Avg` count) must agree;
`Float` fields compare with `f64` IEEE equality (NaN ≠ NaN). -/
def OwnedValue.beq : OwnedValue → OwnedValue → Bool
  | .Null, .Null => true
  | .Integer a, .Integer b => decide (a = b)
  | .Float a, .Float b => f64Eq a b
  | .Text a, .Text b => decide (a.value = b.value) && TextSubtype.beq a.subtype b.subtype
  | .Blob a, .Blob b => decide (a = b)
  | .Agg a, .Agg b => AggContext.beq a b
  | .Record a, .Record b => OwnedRecord.beq a b
  | _, _ => false

/-- The derived `PartialEq` on `AggContext`. -/
def AggContext.beq : AggContext → AggContext → Bool
  | .Avg a c, .Avg b d => OwnedValue.beq a b && OwnedValue.beq c d
  | .Sum a, .Sum b => OwnedValue.beq a b
  | .Count a, .Count b => OwnedValue.beq a b
  | .Max a, .Max b => optBeq a b
  | .Min a, .Min b => optBeq a b
  | .GroupConcat a, .GroupConcat b => OwnedValue.beq a b
  | _, _ => false

/-- The derived `PartialEq` on `Option<OwnedValue>`. -/
def optBeq : Option OwnedValue → Option OwnedValue → Bool
  | none, none => true
  | some a, some b => OwnedValue.beq a b
  | _, _ => false

/-- The derived `PartialEq` on `OwnedRecord`. -/
def OwnedRecord.beq : OwnedRecord → OwnedRecord → Bool
  | .mk vs1, .mk vs2 => listValBeq vs1 vs2

/-- The derived `PartialEq` on `Vec<OwnedValue>`: element-wise, lengths
must agree. -/
def listValBeq : List OwnedValue → List OwnedValue → Bool
  | [], [] => true
  | a :: as', b :: bs' => OwnedValue.beq a b && listValBeq as' bs'
  | _, _ => false
end

/-! ## Arithmetic (`impl Add`, `impl Div`) -/

/-- Wrapping `i64` addition (release-mode two's-complement semantics),
made explicit as arithmetic modulo `2^64` re-centred on `[-2^63, 2^63)`. -/
def wrapI64 (x : Int) : Int := (x + 2 ^ 63) % 2 ^ 64 - 2 ^ 63

/-- Rust `i64` `to_string`. -/
def intToString (i : Int) : String := toString i

/-- `impl Add<OwnedValue> for OwnedValue` (src/core/types.rs, lines
191–236), arms in source order; the final arm is the silent
`OwnedValue::Float(0.0)` fallback. -/
def OwnedValue.add : OwnedValue → OwnedValue → OwnedValue
  | .Integer int_left, .Integer int_right => .Integer (wrapI64 (int_left + int_right))
  | .Integer int_left, .Float float_right => .Float (f64Add (intToF64 int_left) float_right)
  | .Float float_left, .Integer int_right => .Float (f64Add float_left (intToF64 int_right))
  | .Float float_left, .Float float_right => .Float (f64Add float_left float_right)
  | .Text string_left, .Text string_right =>
    OwnedValue.build_text (string_left.value ++ string_right.value)
  | .Text string_left, .Integer int_right =>
    OwnedValue.build_text (string_left.value ++ intToString int_right)
  | .Integer int_left, .Text string_right =>
    OwnedValue.build_text (intToString int_left ++ string_right.value)
  | .Text string_left, .Float float_right =>
    OwnedValue.build_text (string_left.value ++ f64Display float_right)
  | .Float float_left, .Text string_right =>
    OwnedValue.build_text (f64Display float_left ++ string_right.value)
  | lhs, .Null => lhs
  | .Null, rhs => rhs
  | _, _ => .Float (.finite 0)

/-- `i64` division truncating toward zero (the semantics of Rust `/`). -/
def tdivI64 (a b : Int) : Int :=
  (if (a < 0) = (b < 0) then 1 else -1) * ((a.natAbs / b.natAbs : Nat) : Int)

/-- `impl Div<OwnedValue> for OwnedValue` (src/core/types.rs, lines
280–300).  `none` models the `i64` division panics (divide by zero,
`i64::MIN / -1` overflow); the final arm is the silent
`OwnedValue::Float(0.0)` fallback. -/
def OwnedValue.div : OwnedValue → OwnedValue → Option OwnedValue
  | .Integer int_left, .Integer int_right =>
    if int_right = 0 then none
    else if int_left = -(2 ^ 63) ∧ int_right = -1 then none
    else some (.Integer (tdivI64 int_left int_right))
  | .Integer int_left, .Float float_right =>
    some (.Float (f64Div (intToF64 int_left) float_right))
  | .Float float_left, .Integer int_right =>
    some (.Float (f64Div float_left (intToF64 int_right)))
  | .Float float_left, .Float float_right =>
    some (.Float (f64Div float_left float_right))
  | _, _ => some (.Float (.finite 0))

/-! ## Serial types (`SerialType`, `impl From<&OwnedValue> for SerialType`) -/

def I8_LOW : Int := -128
def I8_HIGH : Int := 127
def I16_LOW : Int := -32768
def I16_HIGH : Int := 32767
def I24_LOW : Int := -8388608
def I24_HIGH : Int := 8388607
def I32_LOW : Int := -2147483648
def I32_HIGH : Int := 2147483647
def I48_LOW : Int := -140737488355328
def I48_HIGH : Int := 140737488355327

/-- SQLite serial types (src/core/types.rs, lines 401–415). -/
inductive SerialType where
  | Null
  | I8
  | I16
  | I24
  | I32
  | I48
  | I64
  | F64
  | Text (content_size : Nat)
  | Blob (content_size : Nat)
deriving DecidableEq, Repr

/-- The integer arm of `impl From<&OwnedValue> for SerialType`: the guard
chain over the fixed range constants, in source order. -/
def serialTypeOfInt (i : Int) : SerialType :=
  if I8_LOW ≤ i ∧ i ≤ I8_HIGH then .I8
  else if I16_LOW ≤ i ∧ i ≤ I16_HIGH then .I16
  else if I24_LOW ≤ i ∧ i ≤ I24_HIGH then .I24
  else if I32_LOW ≤ i ∧ i ≤ I32_HIGH then .I32
  else if I48_LOW ≤ i ∧ i ≤ I48_HIGH then .I48
  else .I64

/-- `impl From<&OwnedValue> for SerialType`; `none` models the
`unreachable!` panic on `Agg` and `Record`. -/
def serialType : OwnedValue → Option SerialType
  | .Null => some .Null
  | .Integer i => some (serialTypeOfInt i)
  | .Float _ => some .F64
  | .Text t => some (.Text (strBytes t.value).length)
  | .Blob b => some (.Blob b.length)
  | .Agg _ => none
  | .Record _ => none

/-- `impl From<SerialType> for u64`: the numeric on-disk tag. -/
def serialTypeU64 : SerialType → Nat
  | .Null => 0
  | .I8 => 1
  | .I16 => 2
  | .I24 => 3
  | .I32 => 4
  | .I48 => 5
  | .I64 => 6
  | .F64 => 7
  | .Text content_size => content_size * 2 + 13
  | .Blob content_size => content_size * 2 + 12

/-! ## Varint and content encoding -/

/-- Big-endian base-128 chunks of `n` (low 7 bits per byte), most
significant first; at least one chunk. -/
def sevenBitChunks (n : Nat) : List Nat :=
  if n < 128 then [n] else sevenBitChunks (n / 128) ++ [n % 128]
termination_by n
decreasing_by exact Nat.div_lt_self (by omega) (by omega)

/-- Set the continuation (high) bit on every chunk but the last. -/
def markContinuation : List Nat → List Nat
  | [] => []
  | [b] => [b]
  | b :: rest => (b + 128) :: markContinuation rest

/-- Left-pad a chunk list to 8 entries with zero chunks. -/
def pad8 (l : List Nat) : List Nat := List.replicate (8 - l.length) 0 ++ l

/-- Modelled from the spec: `write_varint` lives in
`src/storage/sqlite3_ondisk.rs`, which is not part of the given sources.
Per the spec (§6), it is the reference (SQLite) variable-length integer
encoding: base-128 value encoding, 1–9 bytes, high continuation bit on
every byte but the last; a value with its top eight bits occupied (≥ 2^56)
uses the 9-byte form whose final byte carries the low 8 bits. -/
def write_varint (n : Nat) : List Nat :=
  if n < 2 ^ 56 then markContinuation (sevenBitChunks n)
  else (pad8 (sevenBitChunks (n / 256))).map (· + 128) ++ [n % 256]

/-- Fixed-width big-endian bytes of a natural number. -/
def bytesOfNat : Nat → Nat → List Nat
  | 0, _ => []
  | w + 1, u => bytesOfNat w (u / 256) ++ [u % 256]

/-- Big-endian two's-complement encoding of `i` on `w` bytes: the Rust
`to_be_bytes` after the width-truncating casts (dropping leading bytes for
the 24- and 48-bit forms is the same as reducing modulo `2^(8*w)`). -/
def beBytes (w : Nat) (i : Int) : List Nat :=
  bytesOfNat w (i % ((2 : Int) ^ (8 * w))).toNat

/-- Floor of the base-2 logarithm of a positive rational. -/
def ratFloorLog2 (a : ℚ) : Int :=
  let e0 : Int := (Nat.log2 a.num.natAbs : Int) - (Nat.log2 a.den : Int)
  if (2 : ℚ) ^ (e0 + 1) ≤ a then e0 + 1
  else if a < (2 : ℚ) ^ e0 then e0 - 1
  else e0

/-- Round a rational to the nearest integer, ties to even. -/
def roundHalfEven (a : ℚ) : Int :=
  let f := ⌊a⌋
  let r := a - f
  if r < 1 / 2 then f
  else if (1 : ℚ) / 2 < r then f + 1
  else if f % 2 = 0 then f else f + 1

/-- IEEE-754 binary64 bit pattern of a finite model value (normal range
only: overflow becomes the infinity pattern and tiny values flush to zero;
subnormals are not modelled, and no theorem below depends on this
encoding). -/
def f64BitsOfRat (q : ℚ) : Nat :=
  if q = 0 then 0
  else
    let s : Nat := if q < 0 then 1 else 0
    let a := |q|
    let e := ratFloorLog2 a
    let m := roundHalfEven (a * (2 : ℚ) ^ ((52 : Int) - e))
    let m2 := if m = 2 ^ 53 then (2 ^ 52 : Int) else m
    let e2 := if m = 2 ^ 53 then e + 1 else e
    if e2 > 1023 then s * 2 ^ 63 + 0x7ff0000000000000
    else if e2 < -1022 then s * 2 ^ 63
    else s * 2 ^ 63 + (e2 + 1023).toNat * 2 ^ 52 + (m2 - 2 ^ 52).toNat

/-- `f64::to_be_bytes`: the eight big-endian bytes of the bit pattern. -/
def f64ToBeBytes : F64 → List Nat
  | .nan => [0x7f, 0xf8, 0, 0, 0, 0, 0, 0]
  | .inf => [0x7f, 0xf0, 0, 0, 0, 0, 0, 0]
  | .neginf => [0xff, 0xf0, 0, 0, 0, 0, 0, 0]
  | .finite q => bytesOfNat 8 (f64BitsOfRat q)

/-! ## `OwnedRecord::serialize` -/

/-- The first loop of `OwnedRecord::serialize`: the concatenated
serial-type varints of the values; `none` when `SerialType::from` panics
(`Agg`/`Record`). -/
def serializeTags : List OwnedValue → Option (List Nat)
  | [] => some []
  | v :: vs => do
    let st ← serialType v
    let rest ← serializeTags vs
    some (write_varint (serialTypeU64 st) ++ rest)

/-- The per-value content bytes of the second loop of
`OwnedRecord::serialize`; `none` models the `unreachable!` arms. -/
def serializeValueContent (v : OwnedValue) : Option (List Nat) :=
  match v with
  | .Null => some []
  | .Integer i =>
    match serialTypeOfInt i with
    | .I8 => some (beBytes 1 i)
    | .I16 => some (beBytes 2 i)
    | .I24 => some (beBytes 3 i)
    | .I32 => some (beBytes 4 i)
    | .I48 => some (beBytes 6 i)
    | .I64 => some (beBytes 8 i)
    | _ => none
  | .Float f => some (f64ToBeBytes f)
  | .Text t => some (strBytes t.value)
  | .Blob b => some b
  | .Agg _ => none
  | .Record _ => none

/-- The second loop of `OwnedRecord::serialize`, concatenated. -/
def serializeContent : List OwnedValue → Option (List Nat)
  | [] => some []
  | v :: vs => do
    let c ← serializeValueContent v
    let rest ← serializeContent vs
    some (c ++ rest)

/-- `OwnedRecord::serialize` (src/core/types.rs, lines 464–517) appending
into `buf`: serial-type varints, then content bytes, then the header
length varint spliced in front.  `none` models the panics: the
`unreachable!` arms for `Agg`/`Record`, the `todo!` branch when the
serial-type bytes exceed 126, and the `assert!(header_size <= 126)` that
fires after the length byte is counted. -/
def OwnedRecord.serialize (r : OwnedRecord) (buf : List Nat) : Option (List Nat) := do
  let tagBytes ← serializeTags r.values
  let content ← serializeContent r.values
  let header_size := tagBytes.length
  if header_size ≤ 126 then
    let header_size2 := header_size + 1
    if header_size2 ≤ 126 then
      some (buf ++ write_varint header_size2 ++ tagBytes ++ content)
    else none
  else none

/-! ## Derived `Ord` on `OwnedRecord` (lexicographic on the value list) -/

/-- The derived `Ord` on `Vec<OwnedValue>`: element-wise in sequence
order, first non-equal element decides, a strict prefix sorts first;
`none` models the panic of an element comparison. -/
def listValCmp : List OwnedValue → List OwnedValue → Option Ordering
  | [], [] => some .eq
  | [], _ :: _ => some .lt
  | _ :: _, [] => some .gt
  | a :: as', b :: bs' =>
    match OwnedValue.cmp a b with
    | none => none
    | some .eq => listValCmp as' bs'
    | some o => some o

/-- The derived `Ord` on `OwnedRecord` (src/core/types.rs, line 385):
lexicographic comparison of the `values` vectors. -/
def OwnedRecord.cmp : OwnedRecord → OwnedRecord → Option Ordering
  | .mk vs1, .mk vs2 => listValCmp vs1 vs2

/-! ## Width predicates for the serial-type claims -/

/-- `i` fits a `w`-bit two's-complement integer. -/
def fitsSigned (w : Nat) (i : Int) : Prop :=
  -(2 ^ (w - 1)) ≤ i ∧ i < 2 ^ (w - 1)

/-- The bit width an integer serial type stores (0 on non-integer tags). -/
def intSerialWidth : SerialType → Nat
  | .I8 => 8
  | .I16 => 16
  | .I24 => 24
  | .I32 => 32
  | .I48 => 48
  | .I64 => 64
  | _ => 0

/-! ## Helper lemmas -/

theorem varint_small (n : Nat) (h : n < 128) : write_varint n = [n] := by
  have h2 : n < 2 ^ 56 := by omega
  unfold write_varint
  rw [if_pos h2, sevenBitChunks, if_pos h]
  rfl

theorem lexCmp_self (l : List Nat) : lexCmp l l = .eq := by
  induction l with
  | nil => rfl
  | cons a as ih => simp [lexCmp, natCmp, ih]

theorem serializeTags_replicate_null (n : Nat) :
    serializeTags (List.replicate n .Null) = some (List.replicate n 0) := by
  induction n with
  | zero => rfl
  | succ k ih =>
    simp [List.replicate_succ, serializeTags, serialType, serialTypeU64, ih,
      varint_small]

theorem serializeContent_replicate_null (n : Nat) :
    serializeContent (List.replicate n .Null) = some [] := by
  induction n with
  | zero => rfl
  | succ k ih =>
    simp [List.replicate_succ, serializeContent, serializeValueContent, ih]

/-! ## Codec helper lemmas -/

theorem serializeTags_singleton_length :
    ∀ vs : List OwnedValue,
      (∀ v ∈ vs, ∃ st, serialType v = some st ∧
        (write_varint (serialTypeU64 st)).length = 1) →
      ∃ tb, serializeTags vs = some tb ∧ tb.length = vs.length := by
  intro vs
  induction vs with
  | nil => exact fun _ => ⟨[], rfl, rfl⟩
  | cons v vs ih =>
    intro h
    obtain ⟨st, hst, hlen⟩ := h v (by simp)
    obtain ⟨tb, htb, htblen⟩ := ih (fun u hu => h u (by simp [hu]))
    refine ⟨write_varint (serialTypeU64 st) ++ tb, ?_, ?_⟩
    · simp [serializeTags, hst, htb]
    · simp [hlen, htblen]
      omega

theorem serializeValueContent_int_isSome (i : Int) :
    (serializeValueContent (.Integer i)).isSome := by
  simp only [serializeValueContent]
  unfold serialTypeOfInt
  split_ifs <;> simp

theorem serializeContent_total :
    ∀ vs : List OwnedValue, (∀ v ∈ vs, (serialType v).isSome) →
      ∃ c, serializeContent vs = some c := by
  intro vs
  induction vs with
  | nil => exact fun _ => ⟨[], rfl⟩
  | cons v vs ih =>
    intro h
    have hv := h v (by simp)
    have hvc : (serializeValueContent v).isSome := by
      cases v with
      | Null => simp [serializeValueContent]
      | Integer i => exact serializeValueContent_int_isSome i
      | Float f => simp [serializeValueContent]
      | Text t => simp [serializeValueContent]
      | Blob b => simp [serializeValueContent]
      | Agg a => simp [serialType] at hv
      | Record r => simp [serialType] at hv
    obtain ⟨cv, hcv⟩ := Option.isSome_iff_exists.mp hvc
    obtain ⟨c, hc⟩ := ih (fun u hu => h u (by simp [hu]))
    exact ⟨cv ++ c, by simp [serializeContent, hcv, hc]⟩

theorem listValCmp_all_eq :
    ∀ vs1 vs2 : List OwnedValue, vs1.length = vs2.length →
      (∀ p ∈ vs1.zip vs2, OwnedValue.cmp p.1 p.2 = some .eq) →
      listValCmp vs1 vs2 = some .eq := by
  intro vs1
  induction vs1 with
  | nil => intro vs2 hl _; cases vs2 with
    | nil => rfl
    | cons b bs => simp at hl
  | cons a as ih =>
    intro vs2 hl hall
    cases vs2 with
    | nil => simp at hl
    | cons b bs =>
      have hab := hall (a, b) (by simp)
      have := ih bs (by simpa using hl) (fun p hp => hall p (by simp [hp]))
      simp [listValCmp, hab, this]

theorem listValCmp_first_diff :
    ∀ (vs1 vs2 : List OwnedValue) (i : Nat) (o : Ordering),
      i < vs1.length → i < vs2.length → o ≠ .eq →
      (∀ j, j < i →
        OwnedValue.cmp (vs1.getD j .Null) (vs2.getD j .Null) = some .eq) →
      OwnedValue.cmp (vs1.getD i .Null) (vs2.getD i .Null) = some o →
      listValCmp vs1 vs2 = some o := by
  intro vs1
  induction vs1 with
  | nil => intro vs2 i o h1 _ _ _ _; simp at h1
  | cons a as ih =>
    intro vs2 i o h1 h2 hne hpre hi
    cases vs2 with
    | nil => simp at h2
    | cons b bs =>
      cases i with
      | zero =>
        simp at hi
        cases o with
        | eq => exact absurd rfl hne
        | lt => simp [listValCmp, hi]
        | gt => simp [listValCmp, hi]
      | succ k =>
        have hab := hpre 0 (Nat.succ_pos k)
        simp at hab
        have := ih bs k o (by simpa using h1) (by simpa using h2) hne
          (fun j hj => by simpa using hpre (j + 1) (by omega))
          (by simpa using hi)
        simp [listValCmp, hab, this]

/-! ## The claims -/

/-- Claim C1: under the comparator, `Null < Integer 0 < Integer 1`;
`Integer 5` compares `Equal` to `Float 5.0` (a mixed Integer/Float
comparison promotes the integer to `f64` first); `Integer 1 < Text "a" <
Blob [0]`; any numeric is strictly less than any Text or Blob, Text is
strictly less than Blob, and text-to-text and blob-to-blob comparisons
are byte-wise lexicographic. -/
theorem comparator_order_chain :
    OwnedValue.cmp .Null (.Integer 0) = some .lt ∧
    OwnedValue.cmp (.Integer 0) (.Integer 1) = some .lt ∧
    OwnedValue.cmp (.Integer 5) (.Float (.finite 5)) = some .eq ∧
    OwnedValue.cmp (.Integer 1) (.Text ⟨"a", .Text⟩) = some .lt ∧
    OwnedValue.cmp (.Text ⟨"a", .Text⟩) (.Blob [0]) = some .lt ∧
    (∀ (i : Int) (f : F64),
      OwnedValue.partCmp (.Integer i) (.Float f) =
        some (f64PartialCmp (intToF64 i) f)) ∧
    (∀ (i : Int) (t : LimboText), OwnedValue.cmp (.Integer i) (.Text t) = some .lt) ∧
    (∀ (i : Int) (b : List Nat), OwnedValue.cmp (.Integer i) (.Blob b) = some .lt) ∧
    (∀ (f : F64) (t : LimboText), OwnedValue.cmp (.Float f) (.Text t) = some .lt) ∧
    (∀ (f : F64) (b : List Nat), OwnedValue.cmp (.Float f) (.Blob b) = some .lt) ∧
    (∀ (t : LimboText) (b : List Nat), OwnedValue.cmp (.Text t) (.Blob b) = some .lt) ∧
    (∀ t1 t2 : LimboText, OwnedValue.cmp (.Text t1) (.Text t2) =
      some (lexCmp (strBytes t1.value) (strBytes t2.value))) ∧
    (∀ b1 b2 : List Nat, OwnedValue.cmp (.Blob b1) (.Blob b2) = some (lexCmp b1 b2)) := by
  refine ⟨?_, ?_, ?_, ?_, ?_, ?_, ?_, ?_, ?_, ?_, ?_, ?_, ?_⟩ <;>
    simp [OwnedValue.cmp, OwnedValue.partCmp, f64PartialCmp, intToF64,
      castIntF64Val, qCmp, intCmp, strBytes, utf8Bytes, lexCmp, natCmp]

/-- Claim C2: for every `i64` value, the serial-type classification of
`OwnedValue::Integer` picks the narrowest of the {8,16,24,32,48,64}-bit
two's-complement widths containing the value (the chosen width fits the
value and is least among the fitting widths), and every listed boundary
integer classifies to exactly its expected width. -/
theorem serialType_integer_narrowest :
    (∀ i : Int, -(2 ^ 63) ≤ i → i < 2 ^ 63 →
      fitsSigned (intSerialWidth (serialTypeOfInt i)) i ∧
      ∀ w ∈ ([8, 16, 24, 32, 48, 64] : List Nat), fitsSigned w i →
        intSerialWidth (serialTypeOfInt i) ≤ w) ∧
    (serialTypeOfInt (-128) = .I8 ∧ serialTypeOfInt 127 = .I8 ∧
     serialTypeOfInt (-32768) = .I16 ∧ serialTypeOfInt 32767 = .I16 ∧
     serialTypeOfInt (-8388608) = .I24 ∧ serialTypeOfInt 8388607 = .I24 ∧
     serialTypeOfInt (-2147483648) = .I32 ∧ serialTypeOfInt 2147483647 = .I32 ∧
     serialTypeOfInt (-140737488355328) = .I48 ∧
     serialTypeOfInt 140737488355327 = .I48 ∧
     serialTypeOfInt (-9223372036854775808) = .I64 ∧
     serialTypeOfInt 9223372036854775807 = .I64) := by
  constructor
  · intro i h1 h2
    unfold serialTypeOfInt
    simp only [I8_LOW, I8_HIGH, I16_LOW, I16_HIGH, I24_LOW, I24_HIGH,
      I32_LOW, I32_HIGH, I48_LOW, I48_HIGH]
    split_ifs with g8 g16 g24 g32 g48 <;>
      refine ⟨by norm_num [fitsSigned, intSerialWidth]; omega, ?_⟩ <;>
      (intro w hw hfit; fin_cases hw <;>
        norm_num [fitsSigned, intSerialWidth] at hfit ⊢ <;> omega)
  · refine ⟨?_, ?_, ?_, ?_, ?_, ?_, ?_, ?_, ?_, ?_, ?_, ?_⟩ <;> decide

/-- Claim C2 witness: a concrete instance, `1000` classifies to a width
that contains it. -/
theorem serialType_integer_narrowest_witness :
    fitsSigned (intSerialWidth (serialTypeOfInt 1000)) 1000 :=
  (serialType_integer_narrowest.1 1000 (by norm_num) (by norm_num)).1

/-- Claim C3 counterexample: a record of 126 values whose serial-type
tags are all single-byte does not get a header with length field `127`:
after the length byte is counted the `assert!(header_size <= 126)` fires,
so `serialize` panics and emits nothing. -/
theorem serialize_header_at_126_panics :
    OwnedRecord.serialize (.mk (List.replicate 126 .Null)) [] = none := by
  have h1 := serializeTags_replicate_null 126
  have h2 := serializeContent_replicate_null 126
  simp only [OwnedRecord.serialize, OwnedRecord.values, h1, h2,
    Option.bind_eq_bind, Option.some_bind, List.length_replicate]
  norm_num

/-- Claim C3 as amended: for every record of `N ≤ 125` values each of
whose serial-type tags encodes as a single varint byte, `serialize` into
an initially empty buffer emits a header whose length field (the first
byte) equals `N + 1`; in particular `serialize [Null]` produces exactly
`[0x02, 0x00]`.  (For `N ≥ 126` the encoder panics instead of emitting a
header.) -/
theorem serialize_header_length_field :
    (∀ r : OwnedRecord,
      (∀ v ∈ r.values, ∃ st, serialType v = some st ∧
        (write_varint (serialTypeU64 st)).length = 1) →
      r.values.length ≤ 125 →
      (OwnedRecord.serialize r []).map (fun out => out.take 1) =
        some [r.values.length + 1]) ∧
    OwnedRecord.serialize (.mk [.Null]) [] = some [0x02, 0x00] := by
  constructor
  · intro r h hlen
    obtain ⟨tb, htb, htblen⟩ := serializeTags_singleton_length r.values h
    obtain ⟨c, hc⟩ := serializeContent_total r.values
      (fun v hv => by obtain ⟨st, hst, _⟩ := h v hv; simp [hst])
    simp only [OwnedRecord.serialize, htb, hc, Option.bind_eq_bind,
      Option.some_bind, htblen]
    rw [if_pos (by omega : r.values.length ≤ 126),
      if_pos (by omega : r.values.length + 1 ≤ 126)]
    rw [varint_small (r.values.length + 1) (by omega)]
    simp
  · simp [OwnedRecord.serialize, OwnedRecord.values, serializeTags,
      serializeContent, serializeValueContent, serialType, serialTypeU64,
      varint_small]

/-- Claim C3 witness: the one-value record `[Integer 42]` gets header
length field `2`. -/
theorem serialize_header_length_field_witness :
    (OwnedRecord.serialize (.mk [.Integer 42]) []).map (fun out => out.take 1) =
      some [2] := by
  have h := serialize_header_length_field.1 (.mk [.Integer 42])
    (by
      intro v hv
      simp [OwnedRecord.values] at hv
      subst hv
      refine ⟨.I8, by decide, ?_⟩
      show (write_varint 1).length = 1
      rw [varint_small 1 (by norm_num)]
      rfl)
    (by simp [OwnedRecord.values])
  simpa [OwnedRecord.values] using h

/-- Claim C4 (code bug): the `Ord` implementation is not total.  On NaN
floats `partial_cmp` returns Rust `None`, so `cmp`'s `unwrap` panics
(modelled as `none`): the comparator fails to return a result on some
pairs of Float values, contrary to the total-order contract. -/
theorem cmp_nan_panics :
    OwnedValue.partCmp (.Float .nan) (.Float .nan) = some none ∧
    OwnedValue.cmp (.Float .nan) (.Float .nan) = none := by
  constructor <;> simp [OwnedValue.cmp, OwnedValue.partCmp, f64PartialCmp]

/-- Claim C5: `Null` is a two-sided additive identity: for every
`OwnedValue` `v` (of any variant), `v + Null` and `Null + v` both
evaluate to `v`. -/
theorem add_null_identity (v : OwnedValue) :
    OwnedValue.add v .Null = v ∧ OwnedValue.add .Null v = v := by
  cases v <;> exact ⟨rfl, rfl⟩

/-- Claim C6 counterexample: `Blob + Integer` (and `Blob / Integer`) does
not abort; it silently evaluates to the default `Float(0.0)`. -/
theorem add_blob_silent_default :
    OwnedValue.add (.Blob [0]) (.Integer 1) = .Float (.finite 0) ∧
    OwnedValue.div (.Blob [0]) (.Integer 1) = some (.Float (.finite 0)) :=
  ⟨rfl, rfl⟩

/-- Claim C6 as amended: applying `+` or `/` to unsupported operand
combinations (a Blob with any right operand — except `Blob + Null`, which
the `Null`-identity arm catches first) silently coerces the result to the
default `Float(0.0)` fallback instead of aborting. -/
theorem arith_unsupported_yields_default (b : List Nat) (v : OwnedValue) :
    (v ≠ .Null → OwnedValue.add (.Blob b) v = .Float (.finite 0)) ∧
    OwnedValue.div (.Blob b) v = some (.Float (.finite 0)) := by
  cases v <;>
    exact ⟨fun h => by first | rfl | exact absurd rfl h, rfl⟩

/-- Claim C6 witness: a concrete unsupported combination. -/
theorem arith_unsupported_yields_default_witness :
    OwnedValue.add (.Blob [1]) (.Text ⟨"x", .Text⟩) = .Float (.finite 0) ∧
    OwnedValue.div (.Blob [1]) (.Text ⟨"x", .Text⟩) = some (.Float (.finite 0)) :=
  ⟨(arith_unsupported_yields_default [1] (.Text ⟨"x", .Text⟩)).1
    (fun h => OwnedValue.noConfusion h),
   (arith_unsupported_yields_default [1] (.Text ⟨"x", .Text⟩)).2⟩

/-- Claim C7: when the serial-type bytes of a record exceed 126 (the
header no longer fits a single-byte length varint) the encoder reports
the unsupported condition by aborting (the `todo!` branch, modelled as
`none`), never emitting a truncated or miscounted record. -/
theorem serialize_large_header_panics (r : OwnedRecord) (buf tb : List Nat)
    (htb : serializeTags r.values = some tb) (hlen : 126 < tb.length) :
    OwnedRecord.serialize r buf = none := by
  cases hc : serializeContent r.values with
  | none => simp [OwnedRecord.serialize, htb, hc]
  | some c =>
    simp only [OwnedRecord.serialize, htb, hc, Option.bind_eq_bind,
      Option.some_bind]
    rw [if_neg (by omega)]

/-- Claim C7 witness: a record of 127 `Null`s has 127 single-byte tags
and `serialize` aborts. -/
theorem serialize_large_header_panics_witness :
    OwnedRecord.serialize (.mk (List.replicate 127 .Null)) [] = none :=
  serialize_large_header_panics (.mk (List.replicate 127 .Null)) []
    (List.replicate 127 0) (serializeTags_replicate_null 127) (by simp)

/-- Claim C8 counterexample: the derived `==` distinguishes Text values
with equal string payloads but different subtype tags, so the equality
operator is not subtype-insensitive. -/
theorem beq_text_subtype_sensitive :
    OwnedValue.beq (.Text ⟨"a", .Text⟩) (.Text ⟨"a", .Json⟩) = false := by
  simp [OwnedValue.beq, TextSubtype.beq]

/-- Claim C8 as amended: the text subtype tag never affects the
comparator — Text values with equal payloads compare `Equal` whatever
their subtypes — but the derived `==` also compares the subtype tag, so
on equal payloads it returns `true` exactly when the subtypes agree. -/
theorem text_subtype_never_affects_ordering (s1 s2 : String)
    (t1 t2 : TextSubtype) (h : s1 = s2) :
    OwnedValue.cmp (.Text ⟨s1, t1⟩) (.Text ⟨s2, t2⟩) = some .eq ∧
    OwnedValue.beq (.Text ⟨s1, t1⟩) (.Text ⟨s2, t2⟩) = TextSubtype.beq t1 t2 := by
  subst h
  constructor
  · simp [OwnedValue.cmp, OwnedValue.partCmp, lexCmp_self]
  · simp [OwnedValue.beq]

/-- Claim C8 witness: equal payloads, different subtypes. -/
theorem text_subtype_never_affects_ordering_witness :
    OwnedValue.cmp (.Text ⟨"a", .Text⟩) (.Text ⟨"a", .Json⟩) = some .eq ∧
    OwnedValue.beq (.Text ⟨"a", .Text⟩) (.Text ⟨"a", .Json⟩) =
      TextSubtype.beq .Text .Json :=
  text_subtype_never_affects_ordering "a" "a" .Text .Json rfl

/-- Claim C9 counterexample: comparing two `OwnedValue::Record` values
through the `OwnedValue` comparator hits the `todo!` fallback and panics
(modelled as `none`) even on field-wise equal records, instead of
returning `Equal`. -/
theorem cmp_record_record_panics :
    OwnedValue.cmp (.Record (.mk [])) (.Record (.mk [])) = none := by
  simp [OwnedValue.cmp, OwnedValue.partCmp]

/-- Claim C9 as amended: the `OwnedValue` comparator does not implement
`Record`-to-`Record` comparison (its fallback panics); the field-wise
sequence order lives on `OwnedRecord`'s derived `Ord`: for equal-length
records, field-wise equal records compare `Equal`, and the first
differing field decides the result. -/
theorem ownedRecord_cmp_fieldwise (vs1 vs2 : List OwnedValue) :
    OwnedValue.partCmp (.Record (.mk vs1)) (.Record (.mk vs2)) = none ∧
    (vs1.length = vs2.length →
      ((∀ p ∈ vs1.zip vs2, OwnedValue.cmp p.1 p.2 = some .eq) →
        OwnedRecord.cmp (.mk vs1) (.mk vs2) = some .eq) ∧
      (∀ (i : Nat) (o : Ordering), i < vs1.length → o ≠ .eq →
        (∀ j, j < i →
          OwnedValue.cmp (vs1.getD j .Null) (vs2.getD j .Null) = some .eq) →
        OwnedValue.cmp (vs1.getD i .Null) (vs2.getD i .Null) = some o →
        OwnedRecord.cmp (.mk vs1) (.mk vs2) = some o)) := by
  refine ⟨by simp [OwnedValue.partCmp], fun hl => ⟨?_, ?_⟩⟩
  · intro hall
    exact listValCmp_all_eq vs1 vs2 hl hall
  · intro i o hi hne hpre hio
    exact listValCmp_first_diff vs1 vs2 i o hi (by omega) hne hpre hio

/-- Claim C9 witness: the first differing field decides. -/
theorem ownedRecord_cmp_fieldwise_witness :
    OwnedRecord.cmp (.mk [.Integer 1]) (.mk [.Integer 2]) = some .lt :=
  ((ownedRecord_cmp_fieldwise [.Integer 1] [.Integer 2]).2 rfl).2 0 .lt
    (by norm_num) (by decide)
    (fun j hj => absurd hj (Nat.not_lt_zero j))
    (by simp [OwnedValue.cmp, OwnedValue.partCmp, intCmp])

/-- Claim C10: the derived `==` is strictly finer than comparator
equality: `Integer 5` and `Float 5.0` compare `Equal` under `cmp` but are
not `==`-equal, so `==` disagrees with the comparator on mixed
Integer/Float pairs. -/
theorem beq_finer_than_comparator_eq :
    OwnedValue.cmp (.Integer 5) (.Float (.finite 5)) = some .eq ∧
    OwnedValue.beq (.Integer 5) (.Float (.finite 5)) = false := by
  constructor
  · simp [OwnedValue.cmp, OwnedValue.partCmp, f64PartialCmp, intToF64,
      castIntF64Val, qCmp]
  · simp [OwnedValue.beq]
